import Mathlib

/-!
Shallow embedding of the paper-trading core of `neon_trader_v7`
(`src/models/trading_engine.py`): order/position/trade records, the
`RiskManager`, the `PaperTradingEngine` state machine, and the
`DonchianBreakoutStrategy` signal generator.

Python floats are modelled as rationals (`ℚ`), `uuid4` identifiers as a
monotone `Nat` counter threaded through the engine state, Python `dict`s
(which iterate in insertion order) as association lists with appends at
the tail, and `datetime` fields are dropped (no claim depends on them;
`RiskManager.update_daily_pnl`'s UTC-day rollover reset is modelled as
never firing, i.e. all activity happens within one UTC day).

A Python expression that raises `TypeError` (comparison of `None` with a
number) is modelled by an explicit `typeError` / crash outcome; the state
returned together with a crash outcome is the state at the moment the
exception propagates out of the public operation.
-/

/-- `OrderType` enum from the source (the `oco`, `trail` and `break_even`
variants are declared in the source but never given execution paths). -/
inductive OrderType
  | market
  | limit
  | stop
  | stop_limit
  | oco
  | trail
  | break_even
deriving DecidableEq, Repr

/-- `OrderSide` enum from the source. -/
inductive OrderSide
  | buy
  | sell
deriving DecidableEq, Repr

/-- `OrderStatus` enum from the source. -/
inductive OrderStatus
  | pending
  | «open»
  | filled
  | partially_filled
  | cancelled
  | rejected
deriving DecidableEq, Repr

/-- `PositionSide` enum from the source. -/
inductive PositionSide
  | long
  | short
deriving DecidableEq, Repr

/-- The `Order` dataclass (timestamps and `exchange_order_id` dropped). -/
structure Order where
  id : Nat
  symbol : String
  side : OrderSide
  type : OrderType
  quantity : ℚ
  price : Option ℚ
  stop_price : Option ℚ
  status : OrderStatus := OrderStatus.pending
  filled_quantity : ℚ := 0
  average_price : ℚ := 0
deriving DecidableEq, Repr

/-- The `Position` dataclass (timestamps dropped). -/
structure Position where
  id : Nat
  symbol : String
  side : PositionSide
  quantity : ℚ
  entry_price : ℚ
  current_price : ℚ
  unrealized_pnl : ℚ := 0
  realized_pnl : ℚ := 0
deriving DecidableEq, Repr

/-- The `Trade` dataclass (timestamp dropped). -/
structure Trade where
  id : Nat
  order_id : Nat
  symbol : String
  side : OrderSide
  quantity : ℚ
  price : ℚ
  commission : ℚ := 0
deriving DecidableEq, Repr

/-- The `RiskManager` class.  `daily_reset_time` is dropped: the UTC-day
rollover branch of `update_daily_pnl` is modelled as never taken. -/
structure RiskManager where
  max_risk_per_trade : ℚ := 5 / 1000
  max_daily_loss : ℚ := 2 / 100
  max_positions : Nat := 10
  max_leverage : ℚ := 1
  daily_pnl : ℚ := 0
deriving DecidableEq, Repr

/-- `RiskManager()` with the default constructor arguments. -/
def RiskManager.mk_default : RiskManager := {}

/-- `RiskManager.calculate_position_size`. -/
def RiskManager.calculate_position_size (rm : RiskManager) (account_balance : ℚ)
    (entry_price : ℚ) (stop_loss_price : ℚ) : ℚ :=
  if entry_price ≤ 0 ∨ stop_loss_price ≤ 0 then 0
  else
    let risk_per_unit := |entry_price - stop_loss_price|
    if risk_per_unit ≤ 0 then 0
    else
      let risk_amount := account_balance * rm.max_risk_per_trade
      risk_amount / risk_per_unit

/-- Result of `RiskManager.validate_order`.  The `ok`/failure constructors
mirror the `(bool, str)` return value, with the Arabic reason strings named
after the spec's error taxonomy; `typeError` models the `TypeError` Python
raises when `order.price` is `None` and the code evaluates
`order.price <= 0` for a limit / stop-limit order. -/
inductive ValidationResult
  | ok
  | dailyLossLimitReached
  | positionLimitReached
  | invalidQuantity
  | invalidPrice
  | typeError
deriving DecidableEq, Repr

/-- `RiskManager.validate_order`: the four checks in source order. -/
def RiskManager.validate_order (rm : RiskManager) (order : Order)
    (account_balance : ℚ) (current_positions : List Position) : ValidationResult :=
  if rm.daily_pnl ≤ -account_balance * rm.max_daily_loss then .dailyLossLimitReached
  else if rm.max_positions ≤ current_positions.length then .positionLimitReached
  else if order.quantity ≤ 0 then .invalidQuantity
  else if order.type = OrderType.limit ∨ order.type = OrderType.stop_limit then
    match order.price with
    | none => .typeError
    | some p => if p ≤ 0 then .invalidPrice else .ok
  else .ok

/-- `RiskManager.update_daily_pnl` (day-rollover reset modelled as not
firing: all modelled activity is within one UTC day). -/
def RiskManager.update_daily_pnl (rm : RiskManager) (pnl_change : ℚ) : RiskManager :=
  { rm with daily_pnl := rm.daily_pnl + pnl_change }

/-- The `PaperTradingEngine` state.  The Python `dict`s `orders` and
`positions` (keyed by uuid, iterated in insertion order) are association
lists in insertion order; `market_data` maps a symbol to its last tick
price (the stored timestamp is dropped).  `next_id` models the `uuid4`
generator: each fresh id is the current counter value.  The `threading`
lock is dropped (all modelled executions are sequential). -/
structure Engine where
  initial_balance : ℚ
  current_balance : ℚ
  orders : List Order := []
  positions : List Position := []
  trades : List Trade := []
  market_data : List (String × ℚ) := []
  risk_manager : RiskManager := {}
  is_running : Bool := false
  next_id : Nat := 0
deriving DecidableEq, Repr

/-- `PaperTradingEngine.__init__(initial_balance)`. -/
def Engine.new (initial_balance : ℚ) : Engine :=
  { initial_balance := initial_balance, current_balance := initial_balance }

/-- `PaperTradingEngine.start`. -/
def Engine.start (e : Engine) : Engine := { e with is_running := true }

/-- `PaperTradingEngine.stop`. -/
def Engine.stop (e : Engine) : Engine := { e with is_running := false }

/-- Lookup in the `market_data` dict (`symbol in self.market_data` /
`self.market_data[symbol]['price']`). -/
def Engine.market_price (e : Engine) (symbol : String) : Option ℚ :=
  (e.market_data.find? (fun p => p.1 = symbol)).map (·.2)

/-- `self.market_data[symbol].update({'price': price, ...})`, inserting the
symbol first when absent. -/
def market_store (md : List (String × ℚ)) (symbol : String) (price : ℚ) :
    List (String × ℚ) :=
  if md.any (fun p => p.1 = symbol) then
    md.map (fun p => if p.1 = symbol then (p.1, price) else p)
  else md ++ [(symbol, price)]

/-- Replace the stored order having `o`'s id by `o` (the Python code
mutates the `Order` object held in the `orders` dict in place). -/
def Engine.set_order (e : Engine) (o : Order) : Engine :=
  { e with orders := e.orders.map (fun x => if x.id = o.id then o else x) }

/-- The linear search over `self.positions.values()` for a position on
`symbol` at the top of `_update_position_from_trade`. -/
def find_position_by_symbol (ps : List Position) (symbol : String) : Option Position :=
  ps.find? (fun p => p.symbol = symbol)

/-- `PaperTradingEngine._update_position_from_trade`. -/
def Engine.update_position_from_trade (e : Engine) (trade : Trade) : Engine :=
  match find_position_by_symbol e.positions trade.symbol with
  | none =>
      let position_side := if trade.side = OrderSide.buy then PositionSide.long
                           else PositionSide.short
      let position : Position :=
        { id := e.next_id, symbol := trade.symbol, side := position_side,
          quantity := trade.quantity, entry_price := trade.price,
          current_price := trade.price }
      { e with positions := e.positions ++ [position], next_id := e.next_id + 1 }
  | some existing =>
      if (existing.side = PositionSide.long ∧ trade.side = OrderSide.buy) ∨
         (existing.side = PositionSide.short ∧ trade.side = OrderSide.sell) then
        let total_value := existing.quantity * existing.entry_price +
                           trade.quantity * trade.price
        let total_quantity := existing.quantity + trade.quantity
        let updated := { existing with entry_price := total_value / total_quantity,
                                       quantity := total_quantity }
        { e with positions :=
            e.positions.map (fun x => if x.id = existing.id then updated else x) }
      else
        if existing.quantity ≤ trade.quantity then
          { e with positions := e.positions.filter (fun x => ¬ x.id = existing.id) }
        else
          let updated := { existing with quantity := existing.quantity - trade.quantity }
          { e with positions :=
              e.positions.map (fun x => if x.id = existing.id then updated else x) }

/-- `PaperTradingEngine._execute_market_order`.  The order passed in is the
object the caller holds (already stored in `orders`); `set_order` mirrors
the in-place mutation of that shared object.  The trade uuid is drawn from
`next_id`. -/
def Engine.execute_market_order (e : Engine) (order : Order) : Engine :=
  match e.market_price order.symbol with
  | none => e.set_order { order with status := OrderStatus.rejected }
  | some current_price =>
      let order' := { order with status := OrderStatus.filled,
                                 filled_quantity := order.quantity,
                                 average_price := current_price }
      let e := e.set_order order'
      let trade : Trade :=
        { id := e.next_id, order_id := order'.id, symbol := order'.symbol,
          side := order'.side, quantity := order'.quantity, price := current_price }
      let e := { e with trades := e.trades ++ [trade], next_id := e.next_id + 1 }
      let e := e.update_position_from_trade trade
      let trade_value := trade.quantity * trade.price
      if trade.side = OrderSide.buy then
        { e with current_balance := e.current_balance - trade_value }
      else
        { e with current_balance := e.current_balance + trade_value }

/-- The Arabic message strings returned by the engine's public operations,
named after the spec's error taxonomy:
`engineStopped` = "محرك التداول متوقف", `orderPlaced` = success,
`orderNotFound` / `cannotCancel` / `orderCancelled` are the three
`cancel_order` messages, `positionNotFound` / `overClose` the two
`close_position`-specific ones, and the four risk reasons are the
`validate_order` strings forwarded by `place_order`. -/
inductive Msg
  | engineStopped
  | dailyLossLimitReached
  | positionLimitReached
  | invalidQuantity
  | invalidPrice
  | orderPlaced
  | orderNotFound
  | cannotCancel
  | orderCancelled
  | positionNotFound
  | overClose
deriving DecidableEq, Repr

/-- Outcome of a public engine operation that in Python returns a tuple
`(ok, message [, order_id])`.  `crashed` models an uncaught `TypeError`
propagating out of the operation; `deadlocked` models the calling thread
blocking forever while re-acquiring the engine's non-reentrant
`threading.Lock` that it already holds (the operation never returns; the
paired engine is the state at that moment, nothing having been mutated
yet). -/
inductive Outcome
  | crashed
  | deadlocked
  | ret (ok : Bool) (msg : Msg) (order_id : Option Nat)
deriving DecidableEq, Repr

/-- `PaperTradingEngine.place_order`.  The fresh order's uuid is `e.next_id`;
the counter is only advanced when the order is actually stored. -/
def Engine.place_order (e : Engine) (symbol : String) (side : OrderSide)
    (order_type : OrderType) (quantity : ℚ) (price : Option ℚ := none)
    (stop_price : Option ℚ := none) : Engine × Outcome :=
  if ¬ e.is_running then (e, .ret false .engineStopped none)
  else
    let order : Order :=
      { id := e.next_id, symbol := symbol, side := side, type := order_type,
        quantity := quantity, price := price, stop_price := stop_price }
    match e.risk_manager.validate_order order e.current_balance e.positions with
    | .typeError => (e, .crashed)
    | .dailyLossLimitReached => (e, .ret false .dailyLossLimitReached none)
    | .positionLimitReached => (e, .ret false .positionLimitReached none)
    | .invalidQuantity => (e, .ret false .invalidQuantity none)
    | .invalidPrice => (e, .ret false .invalidPrice none)
    | .ok =>
        let e := { e with orders := e.orders ++ [order], next_id := e.next_id + 1 }
        let e := if order_type = OrderType.market then e.execute_market_order order
                 else e
        (e, .ret true .orderPlaced (some order.id))

/-- `PaperTradingEngine.cancel_order`. -/
def Engine.cancel_order (e : Engine) (order_id : Nat) : Engine × Bool × Msg :=
  match e.orders.find? (fun o => o.id = order_id) with
  | none => (e, false, .orderNotFound)
  | some order =>
      if order.status = OrderStatus.filled ∨ order.status = OrderStatus.cancelled then
        (e, false, .cannotCancel)
      else
        (e.set_order { order with status := OrderStatus.cancelled }, true, .orderCancelled)

/-- Python's `quantity or position.quantity`: truthiness makes both `None`
and `0.0` fall back to the full position size. -/
def py_or_quantity (quantity : Option ℚ) (fallback : ℚ) : ℚ :=
  match quantity with
  | none => fallback
  | some q => if q = 0 then fallback else q

/-- `PaperTradingEngine.close_position`.  The whole body runs inside
`with self._lock`, and the `place_order` it then calls re-acquires that
same non-reentrant `threading.Lock` as soon as risk validation has
passed, so the calling thread blocks forever at that point.
`place_order`'s pre-lock phase — the `is_running` check, the `Order`
construction and `RiskManager.validate_order` — is inlined here exactly
as `place_order` performs it, and reaching `place_order`'s lock
acquisition is the `deadlocked` outcome (no state was mutated). -/
def Engine.close_position (e : Engine) (position_id : Nat)
    (quantity : Option ℚ := none) : Engine × Outcome :=
  match e.positions.find? (fun p => p.id = position_id) with
  | none => (e, .ret false .positionNotFound none)
  | some position =>
      let close_quantity := py_or_quantity quantity position.quantity
      if position.quantity < close_quantity then (e, .ret false .overClose none)
      else
        let close_side := if position.side = PositionSide.long then OrderSide.sell
                          else OrderSide.buy
        if ¬ e.is_running then (e, .ret false .engineStopped none)
        else
          let order : Order :=
            { id := e.next_id, symbol := position.symbol, side := close_side,
              type := OrderType.market, quantity := close_quantity,
              price := none, stop_price := none }
          match e.risk_manager.validate_order order e.current_balance
              e.positions with
          | .typeError => (e, .crashed)
          | .dailyLossLimitReached => (e, .ret false .dailyLossLimitReached none)
          | .positionLimitReached => (e, .ret false .positionLimitReached none)
          | .invalidQuantity => (e, .ret false .invalidQuantity none)
          | .invalidPrice => (e, .ret false .invalidPrice none)
          | .ok => (e, .deadlocked)

/-- The trigger test inside `_check_pending_orders` for one pending order.
`none` models the `TypeError` raised when the compared `order.price` /
`order.stop_price` is `None`. -/
def should_execute_order (order : Order) (current_price : ℚ) : Option Bool :=
  if order.type = OrderType.limit then
    match order.price with
    | none => none
    | some p => some (decide ((order.side = OrderSide.buy ∧ current_price ≤ p) ∨
                              (order.side = OrderSide.sell ∧ p ≤ current_price)))
  else if order.type = OrderType.stop then
    match order.stop_price with
    | none => none
    | some sp => some (decide ((order.side = OrderSide.buy ∧ sp ≤ current_price) ∨
                               (order.side = OrderSide.sell ∧ current_price ≤ sp)))
  else some false

/-- The loop body of `_check_pending_orders`: Python iterates over
`self.orders.values()` in insertion order; executing an order mutates its
status but never inserts or removes orders, so iterating over the ids
captured at loop entry and re-reading each order from the current state is
faithful.  The `Bool` flags a `TypeError` escaping the loop; the engine
returned with it is the state at that moment. -/
def check_pending_orders_go (symbol : String) (current_price : ℚ) :
    List Nat → Engine → Engine × Bool
  | [], e => (e, false)
  | oid :: rest, e =>
      match e.orders.find? (fun o => o.id = oid) with
      | none => check_pending_orders_go symbol current_price rest e
      | some order =>
          if order.symbol = symbol ∧ order.status = OrderStatus.pending then
            match should_execute_order order current_price with
            | none => (e, true)
            | some true =>
                check_pending_orders_go symbol current_price rest
                  (e.execute_market_order order)
            | some false => check_pending_orders_go symbol current_price rest e
          else check_pending_orders_go symbol current_price rest e

/-- `PaperTradingEngine._update_positions`: mark-to-market of every open
position on `symbol`. -/
def Engine.update_positions_mark (e : Engine) (symbol : String)
    (current_price : ℚ) : Engine :=
  { e with positions := e.positions.map (fun p =>
      if p.symbol = symbol then
        { p with current_price := current_price,
                 unrealized_pnl :=
                   if p.side = PositionSide.long then
                     (current_price - p.entry_price) * p.quantity
                   else (p.entry_price - current_price) * p.quantity }
      else p) }

/-- `PaperTradingEngine.update_market_price`.  The `Bool` component flags a
`TypeError` escaping `_check_pending_orders` (a pending `stop` order whose
`stop_price` is `None`, or a pending `limit` order whose `price` is
`None`). -/
def Engine.update_market_price (e : Engine) (symbol : String) (price : ℚ) :
    Engine × Bool :=
  let e := { e with market_data := market_store e.market_data symbol price }
  let e := e.update_positions_mark symbol price
  check_pending_orders_go symbol price (e.orders.map (·.id)) e

/-- The dictionary returned by `PaperTradingEngine.get_account_summary`. -/
structure AccountSummary where
  initial_balance : ℚ
  current_balance : ℚ
  total_unrealized_pnl : ℚ
  total_realized_pnl : ℚ
  total_equity : ℚ
  open_positions : Nat
  pending_orders : Nat
  total_trades : Nat
deriving DecidableEq, Repr

/-- `PaperTradingEngine.get_account_summary`. -/
def Engine.get_account_summary (e : Engine) : AccountSummary :=
  let total_unrealized_pnl := (e.positions.map (·.unrealized_pnl)).sum
  let total_realized_pnl := (e.trades.map (fun t => t.price * t.quantity)).sum
  { initial_balance := e.initial_balance,
    current_balance := e.current_balance,
    total_unrealized_pnl := total_unrealized_pnl,
    total_realized_pnl := total_realized_pnl,
    total_equity := e.current_balance + total_unrealized_pnl,
    open_positions := e.positions.length,
    pending_orders := (e.orders.filter (fun o => o.status = OrderStatus.pending)).length,
    total_trades := e.trades.length }

/-- `max(prices)` over a nonempty Python list; on `[]` Python raises
(`get_signal` only evaluates it on windows of length ≥ period, which the
theorems constrain to be nonempty). -/
def list_max : List ℚ → ℚ
  | [] => 0
  | h :: t => t.foldl max h

/-- `min(prices)` over a nonempty Python list (same caveat as `list_max`). -/
def list_min : List ℚ → ℚ
  | [] => 0
  | h :: t => t.foldl min h

/-- The `DonchianBreakoutStrategy` class state: configuration plus the
per-symbol rolling `price_history` dict. -/
structure Donchian where
  period : Nat := 20
  risk_reward_ratio : ℚ := 2
  price_history : List (String × List ℚ) := []
deriving DecidableEq, Repr

/-- Lookup of `self.price_history[symbol]` (`none` when `symbol not in
self.price_history`). -/
def Donchian.history (s : Donchian) (symbol : String) : Option (List ℚ) :=
  (s.price_history.find? (fun p => p.1 = symbol)).map (·.2)

/-- `DonchianBreakoutStrategy.update_price`: append, then keep only the
last `period` entries once the list exceeds `period`. -/
def Donchian.update_price (s : Donchian) (symbol : String) (price : ℚ) : Donchian :=
  let old := (s.history symbol).getD []
  let appended := old ++ [price]
  let trimmed := if s.period < appended.length then
                   appended.drop (appended.length - s.period)
                 else appended
  if s.price_history.any (fun p => p.1 = symbol) then
    { s with price_history :=
        s.price_history.map (fun p => if p.1 = symbol then (p.1, trimmed) else p) }
  else
    { s with price_history := s.price_history ++ [(symbol, trimmed)] }

/-- The signal dictionary returned by `get_signal`.  `action` is the
`"buy"` / `"sell"` string. -/
structure Signal where
  action : OrderSide
  entry_price : ℚ
  stop_loss : ℚ
  take_profit : ℚ
  confidence : ℚ
deriving DecidableEq, Repr

/-- `DonchianBreakoutStrategy._calculate_confidence`.  (Python would raise
`ZeroDivisionError` when the broken level is 0; rational division by zero
yields 0 here — no claim touches that case.) -/
def Donchian.calculate_confidence (prices : List ℚ) (current_price : ℚ)
    (action : OrderSide) : ℚ :=
  let breakout_strength :=
    if action = OrderSide.buy then (current_price - list_max prices) / list_max prices
    else (list_min prices - current_price) / list_min prices
  min (max (breakout_strength * 100) (3 / 10)) (9 / 10)

/-- `DonchianBreakoutStrategy.get_signal`. -/
def Donchian.get_signal (s : Donchian) (symbol : String) (current_price : ℚ) :
    Option Signal :=
  match s.history symbol with
  | none => none
  | some prices =>
      if prices.length < s.period then none
      else
        let highest_high := list_max prices
        let lowest_low := list_min prices
        if highest_high < current_price then
          let stop_loss := lowest_low
          some { action := OrderSide.buy, entry_price := current_price,
                 stop_loss := stop_loss,
                 take_profit := current_price +
                   (current_price - stop_loss) * s.risk_reward_ratio,
                 confidence := Donchian.calculate_confidence prices current_price
                   OrderSide.buy }
        else if current_price < lowest_low then
          let stop_loss := highest_high
          some { action := OrderSide.sell, entry_price := current_price,
                 stop_loss := stop_loss,
                 take_profit := current_price -
                   (stop_loss - current_price) * s.risk_reward_ratio,
                 confidence := Donchian.calculate_confidence prices current_price
                   OrderSide.sell }
        else none

/-! ### Concrete executions used as witnesses and counterexamples -/

/-- A started engine with the default initial balance: `engine = PaperTradingEngine(10000); engine.start()`. -/
def e_run : Engine := (Engine.new 10000).start

/-- Scenario A: a market order placed before any tick for its symbol. -/
def eA : Engine := (e_run.place_order "BTC" OrderSide.buy OrderType.market 1).1

/-- Scenario B, step 1: first tick `BTC @ 100`. -/
def eB1 : Engine := (e_run.update_market_price "BTC" 100).1

/-- Scenario B, step 2: market buy of 2 units, opening a long position. -/
def eB2 : Engine := (eB1.place_order "BTC" OrderSide.buy OrderType.market 2).1

/-- Scenario B, step 3: tick `BTC @ 110` (marks the position). -/
def eB3 : Engine := (eB2.update_market_price "BTC" 110).1

/-- Scenario B, step 4: market sell of 1 unit, reducing the position. -/
def eB4 : Engine := (eB3.place_order "BTC" OrderSide.sell OrderType.market 1).1

lemma e_run_eq : e_run =
    { initial_balance := 10000, current_balance := 10000, is_running := true } := by
  simp [e_run, Engine.new, Engine.start]

lemma eA_eq : eA =
    { initial_balance := 10000, current_balance := 10000,
      orders := [{ id := 0, symbol := "BTC", side := .buy, type := .market,
                   quantity := 1, price := none, stop_price := none,
                   status := .rejected }],
      is_running := true, next_id := 1 } := by
  simp [eA, e_run_eq, Engine.place_order, RiskManager.validate_order,
        Engine.execute_market_order, Engine.market_price, Engine.set_order]
  norm_num

lemma eB1_eq : eB1 =
    { initial_balance := 10000, current_balance := 10000,
      market_data := [("BTC", 100)], is_running := true } := by
  simp [eB1, e_run_eq, Engine.update_market_price, market_store,
        Engine.update_positions_mark, check_pending_orders_go]

lemma eB2_eq : eB2 =
    { initial_balance := 10000, current_balance := 9800,
      orders := [{ id := 0, symbol := "BTC", side := .buy, type := .market,
                   quantity := 2, price := none, stop_price := none,
                   status := .filled, filled_quantity := 2, average_price := 100 }],
      positions := [{ id := 2, symbol := "BTC", side := .long, quantity := 2,
                      entry_price := 100, current_price := 100 }],
      trades := [{ id := 1, order_id := 0, symbol := "BTC", side := .buy,
                   quantity := 2, price := 100 }],
      market_data := [("BTC", 100)], is_running := true, next_id := 3 } := by
  simp [eB2, eB1_eq, Engine.place_order, RiskManager.validate_order,
        Engine.execute_market_order, Engine.market_price, Engine.set_order,
        Engine.update_position_from_trade, find_position_by_symbol]
  norm_num

lemma eB3_eq : eB3 =
    { initial_balance := 10000, current_balance := 9800,
      orders := [{ id := 0, symbol := "BTC", side := .buy, type := .market,
                   quantity := 2, price := none, stop_price := none,
                   status := .filled, filled_quantity := 2, average_price := 100 }],
      positions := [{ id := 2, symbol := "BTC", side := .long, quantity := 2,
                      entry_price := 100, current_price := 110,
                      unrealized_pnl := 20 }],
      trades := [{ id := 1, order_id := 0, symbol := "BTC", side := .buy,
                   quantity := 2, price := 100 }],
      market_data := [("BTC", 110)], is_running := true, next_id := 3 } := by
  simp [eB3, eB2_eq, Engine.update_market_price, market_store,
        Engine.update_positions_mark, check_pending_orders_go, should_execute_order]
  norm_num

lemma eB4_eq : eB4 =
    { initial_balance := 10000, current_balance := 9910,
      orders := [{ id := 0, symbol := "BTC", side := .buy, type := .market,
                   quantity := 2, price := none, stop_price := none,
                   status := .filled, filled_quantity := 2, average_price := 100 },
                 { id := 3, symbol := "BTC", side := .sell, type := .market,
                   quantity := 1, price := none, stop_price := none,
                   status := .filled, filled_quantity := 1, average_price := 110 }],
      positions := [{ id := 2, symbol := "BTC", side := .long, quantity := 1,
                      entry_price := 100, current_price := 110,
                      unrealized_pnl := 20 }],
      trades := [{ id := 1, order_id := 0, symbol := "BTC", side := .buy,
                   quantity := 2, price := 100 },
                 { id := 4, order_id := 3, symbol := "BTC", side := .sell,
                   quantity := 1, price := 110 }],
      market_data := [("BTC", 110)], is_running := true, next_id := 5 } := by
  simp [eB4, eB3_eq, Engine.place_order, RiskManager.validate_order,
        Engine.execute_market_order, Engine.market_price, Engine.set_order,
        Engine.update_position_from_trade, find_position_by_symbol]
  norm_num

/-! ### C6 — risk-based position sizing -/

/-- C6: `calculate_position_size` returns
`(balance × max_risk_per_trade) / |entry − stop|`, and `0` whenever the
entry price or stop price is non-positive or `|entry − stop|` is `0`;
with the default max risk `0.005`,
`calculate_position_size(10000, 100, 95) = 10`. -/
theorem C6_calculate_position_size (rm : RiskManager) (balance entry stop : ℚ) :
    ((entry ≤ 0 ∨ stop ≤ 0 ∨ |entry - stop| = 0) →
        rm.calculate_position_size balance entry stop = 0) ∧
    (0 < entry → 0 < stop → |entry - stop| ≠ 0 →
        rm.calculate_position_size balance entry stop =
          balance * rm.max_risk_per_trade / |entry - stop|) ∧
    RiskManager.mk_default.calculate_position_size 10000 100 95 = 10 := by
  refine ⟨?_, ?_, ?_⟩
  · rintro (h | h | h)
    · simp [RiskManager.calculate_position_size, h]
    · simp only [RiskManager.calculate_position_size]
      rw [if_pos (Or.inr h)]
    · simp only [RiskManager.calculate_position_size]
      by_cases he : entry ≤ 0 ∨ stop ≤ 0
      · rw [if_pos he]
      · rw [if_neg he, if_pos (le_of_eq h)]
  · intro he hs hne
    have h1 : ¬ (entry ≤ 0 ∨ stop ≤ 0) := by push_neg; exact ⟨he, hs⟩
    have h2 : ¬ |entry - stop| ≤ 0 :=
      not_le_of_lt (lt_of_le_of_ne (abs_nonneg _) (Ne.symm hne))
    simp only [RiskManager.calculate_position_size]
    rw [if_neg h1, if_neg h2]
  · norm_num [RiskManager.calculate_position_size, RiskManager.mk_default]

/-- Witness for C6 at the spec's concrete input: prices positive, per-unit
risk nonzero, and the formula instantiates to the claimed `10`. -/
theorem C6_witness :
    RiskManager.mk_default.calculate_position_size 10000 100 95 =
      10000 * RiskManager.mk_default.max_risk_per_trade / |(100 : ℚ) - 95| ∧
    RiskManager.mk_default.calculate_position_size 10000 100 95 = 10 := by
  refine ⟨(C6_calculate_position_size RiskManager.mk_default 10000 100 95).2.1
    (by norm_num) (by norm_num) (by norm_num), ?_⟩
  exact (C6_calculate_position_size RiskManager.mk_default 10000 100 95).2.2

/-! ### C2 — the "realized PnL" field of the account summary -/

/-- C2 (code bug evaluation): after a single fill that only opens a
position (start; tick BTC@100; market buy of 2), the engine reports
`total_realized_pnl = 200` — the gross notional `price × quantity` of the
opening trade — although no position was reduced or closed, where the
claimed accumulated realized PnL is `0`. -/
theorem C2_realized_pnl_failing_input :
    eB2.trades.length = 1 ∧
    eB2.positions.map (fun p => (p.quantity, p.realized_pnl)) = [(2, 0)] ∧
    eB2.get_account_summary.total_realized_pnl = 200 ∧
    (200 : ℚ) ≠ 0 := by
  refine ⟨by simp [eB2_eq], by simp [eB2_eq], ?_, by norm_num⟩
  rw [eB2_eq]
  norm_num [Engine.get_account_summary]

/-! ### C10 — engine stopped precondition -/

/-- C10: a freshly constructed engine is stopped (`is_running = false`),
`stop()` stops it, and while stopped every `place_order` call returns
failure with the engine-stopped message and leaves the whole state — in
particular orders, trades and balance — unchanged. -/
theorem C10_stopped_engine_rejects_orders :
    (∀ b : ℚ, (Engine.new b).is_running = false) ∧
    (∀ e : Engine, e.stop.is_running = false) ∧
    (∀ (e : Engine) (symbol : String) (side : OrderSide) (ty : OrderType)
        (q : ℚ) (p sp : Option ℚ), e.is_running = false →
      e.place_order symbol side ty q p sp =
        (e, Outcome.ret false Msg.engineStopped none)) := by
  refine ⟨fun _ => rfl, fun _ => rfl, fun e symbol side ty q p sp h => ?_⟩
  simp [Engine.place_order, h]

/-- Witness for C10: the fresh engine with balance 10000 is stopped, and a
market order placed on it is refused with the stopped message, the state
unchanged. -/
theorem C10_witness :
    (Engine.new 10000).place_order "BTC" OrderSide.buy OrderType.market 1 none none =
      (Engine.new 10000, Outcome.ret false Msg.engineStopped none) :=
  C10_stopped_engine_rejects_orders.2.2 (Engine.new 10000) "BTC" OrderSide.buy
    OrderType.market 1 none none rfl

/-! ### C7 — order validation -/

/-- C7 counterexample: a limit order with quantity 1 and no price, at
balance 10000 with no open positions and no daily loss, is not "passed" by
`validate_order` — evaluating `order.price <= 0` with `order.price = None`
raises a `TypeError` instead. -/
theorem C7_counterexample :
    RiskManager.mk_default.validate_order
      { id := 0, symbol := "BTC", side := .buy, type := .limit, quantity := 1,
        price := none, stop_price := none } 10000 [] = .typeError ∧
    ValidationResult.typeError ≠ ValidationResult.ok := by
  constructor
  · norm_num [RiskManager.validate_order, RiskManager.mk_default]
  · simp

/-- C7 (amended): `validate_order` fails with `DailyLossLimitReached` when
daily PnL ≤ −balance × max_daily_loss, otherwise with
`PositionLimitReached` when the open-position count ≥ max_positions,
otherwise with `InvalidQuantity` when quantity ≤ 0, otherwise with
`InvalidPrice` when a limit/stop-limit order carries price `p ≤ 0`; a
limit/stop-limit order carrying no price raises a `TypeError`; every other
order passes.  Moreover with the default configuration
(`max_daily_loss = 0.02`) and balance 10000, after `update_daily_pnl(-200)`
every subsequent `validate_order` fails with `DailyLossLimitReached`. -/
theorem C7_validate_order (rm : RiskManager) (order : Order) (balance : ℚ)
    (ps : List Position) :
    (rm.daily_pnl ≤ -balance * rm.max_daily_loss →
        rm.validate_order order balance ps = .dailyLossLimitReached) ∧
    (¬ rm.daily_pnl ≤ -balance * rm.max_daily_loss →
      (rm.max_positions ≤ ps.length →
          rm.validate_order order balance ps = .positionLimitReached) ∧
      (ps.length < rm.max_positions →
        (order.quantity ≤ 0 →
            rm.validate_order order balance ps = .invalidQuantity) ∧
        (0 < order.quantity →
          ((order.type = .limit ∨ order.type = .stop_limit) →
            (order.price = none →
                rm.validate_order order balance ps = .typeError) ∧
            (∀ p : ℚ, order.price = some p →
              (p ≤ 0 → rm.validate_order order balance ps = .invalidPrice) ∧
              (0 < p → rm.validate_order order balance ps = .ok))) ∧
          (¬ (order.type = .limit ∨ order.type = .stop_limit) →
              rm.validate_order order balance ps = .ok)))) ∧
    (∀ (o : Order) (ps' : List Position),
        (RiskManager.mk_default.update_daily_pnl (-200)).validate_order o 10000 ps' =
          .dailyLossLimitReached) := by
  refine ⟨?_, ?_, ?_⟩
  · intro h
    simp only [RiskManager.validate_order]
    rw [if_pos h]
  · intro h
    refine ⟨?_, ?_⟩
    · intro hl
      simp only [RiskManager.validate_order]
      rw [if_neg h, if_pos hl]
    · intro hl
      refine ⟨?_, ?_⟩
      · intro hq
        simp only [RiskManager.validate_order]
        rw [if_neg h, if_neg (not_le_of_lt hl), if_pos hq]
      · intro hq
        refine ⟨?_, ?_⟩
        · intro hty
          refine ⟨?_, ?_⟩
          · intro hp
            simp only [RiskManager.validate_order]
            rw [if_neg h, if_neg (not_le_of_lt hl), if_neg (not_le_of_lt hq),
                if_pos hty, hp]
          · intro p hp
            refine ⟨fun hple => ?_, fun hpgt => ?_⟩
            · simp only [RiskManager.validate_order]
              rw [if_neg h, if_neg (not_le_of_lt hl), if_neg (not_le_of_lt hq),
                  if_pos hty, hp]
              exact if_pos hple
            · simp only [RiskManager.validate_order]
              rw [if_neg h, if_neg (not_le_of_lt hl), if_neg (not_le_of_lt hq),
                  if_pos hty, hp]
              exact if_neg (not_le_of_lt hpgt)
        · intro hty
          simp only [RiskManager.validate_order]
          rw [if_neg h, if_neg (not_le_of_lt hl), if_neg (not_le_of_lt hq),
              if_neg hty]
  · intro o ps'
    have h : (RiskManager.mk_default.update_daily_pnl (-200)).daily_pnl ≤
        -(10000 : ℚ) * (RiskManager.mk_default.update_daily_pnl (-200)).max_daily_loss := by
      norm_num [RiskManager.update_daily_pnl, RiskManager.mk_default]
    simp only [RiskManager.validate_order]
    rw [if_pos h]

/-- Witness for C7: with the default risk manager, balance 10000 and no
open positions, a market order of quantity 1 passes, and after
`update_daily_pnl(-200)` the same order is rejected by the daily-loss
gate. -/
theorem C7_witness :
    RiskManager.mk_default.validate_order
      { id := 0, symbol := "BTC", side := .buy, type := .market, quantity := 1,
        price := none, stop_price := none } 10000 [] = .ok ∧
    (RiskManager.mk_default.update_daily_pnl (-200)).validate_order
      { id := 0, symbol := "BTC", side := .buy, type := .market, quantity := 1,
        price := none, stop_price := none } 10000 [] = .dailyLossLimitReached := by
  constructor
  · exact ((((C7_validate_order RiskManager.mk_default
      { id := 0, symbol := "BTC", side := .buy, type := .market, quantity := 1,
        price := none, stop_price := none } 10000 []).2.1
      (by norm_num [RiskManager.mk_default])).2
      (by norm_num [RiskManager.mk_default])).2
      (by norm_num)).2 (by simp)
  · exact (C7_validate_order RiskManager.mk_default
      { id := 0, symbol := "BTC", side := .buy, type := .market, quantity := 1,
        price := none, stop_price := none } 10000 []).2.2
      { id := 0, symbol := "BTC", side := .buy, type := .market, quantity := 1,
        price := none, stop_price := none } []

/-! ### C8 — Donchian breakout signals -/

lemma foldl_min_le_init (t : List ℚ) (a : ℚ) : t.foldl min a ≤ a := by
  induction t generalizing a with
  | nil => simp
  | cons b t ih => exact le_trans (ih (min a b)) (min_le_left a b)

lemma init_le_foldl_max (t : List ℚ) (a : ℚ) : a ≤ t.foldl max a := by
  induction t generalizing a with
  | nil => simp
  | cons b t ih => exact le_trans (le_max_left a b) (ih (max a b))

lemma list_min_le_list_max {l : List ℚ} (h : l ≠ []) : list_min l ≤ list_max l := by
  match l with
  | [] => exact absurd rfl h
  | a :: t =>
      exact le_trans (foldl_min_le_init t a) (init_le_foldl_max t a)

/-- The spec's concrete strategy: period 3, risk-reward 2, fed the window
`[10, 12, 11]` for symbol `"X"`. -/
def s3 : Donchian :=
  ((({ period := 3, risk_reward_ratio := 2 } : Donchian).update_price "X" 10).update_price
    "X" 12).update_price "X" 11

lemma s3_eq : s3 =
    { period := 3, risk_reward_ratio := 2,
      price_history := [("X", [10, 12, 11])] } := by
  simp [s3, Donchian.update_price, Donchian.history]

/-- C8: with a rolling window holding at least `period` samples, `hi` its
maximum and `lo` its minimum, `get_signal` returns a buy signal with
`stop_loss = lo` and `take_profit = price + (price − lo) × R` when the
price breaks above `hi`, a sell signal with `stop_loss = hi` and
`take_profit = price − (hi − price) × R` when it breaks below `lo`, and
no signal otherwise or when the window is short; with period 3 and window
`[10, 12, 11]`, price 13 gives a buy with stop 10, price 9 a sell with
stop 12, and price 11 no signal. -/
theorem C8_donchian_get_signal (s : Donchian) (symbol : String) (prices : List ℚ)
    (current : ℚ) (hh : s.history symbol = some prices) :
    (prices.length < s.period → s.get_signal symbol current = none) ∧
    (s.period ≤ prices.length → prices ≠ [] →
      ((list_max prices < current →
          ∃ sig, s.get_signal symbol current = some sig ∧
            sig.action = OrderSide.buy ∧ sig.stop_loss = list_min prices ∧
            sig.take_profit =
              current + (current - list_min prices) * s.risk_reward_ratio) ∧
       (current < list_min prices →
          ∃ sig, s.get_signal symbol current = some sig ∧
            sig.action = OrderSide.sell ∧ sig.stop_loss = list_max prices ∧
            sig.take_profit =
              current - (list_max prices - current) * s.risk_reward_ratio) ∧
       (list_min prices ≤ current → current ≤ list_max prices →
          s.get_signal symbol current = none))) ∧
    ((s3.get_signal "X" 13).map (fun g => (g.action, g.stop_loss)) =
        some (OrderSide.buy, 10) ∧
     (s3.get_signal "X" 9).map (fun g => (g.action, g.stop_loss)) =
        some (OrderSide.sell, 12) ∧
     s3.get_signal "X" 11 = none) := by
  refine ⟨?_, ?_, ?_, ?_, ?_⟩
  · intro hlen
    simp only [Donchian.get_signal, hh]
    rw [if_pos hlen]
  · intro hlen hne
    refine ⟨?_, ?_, ?_⟩
    · intro hbreak
      have heq : s.get_signal symbol current = some
          { action := OrderSide.buy, entry_price := current,
            stop_loss := list_min prices,
            take_profit := current +
              (current - list_min prices) * s.risk_reward_ratio,
            confidence :=
              Donchian.calculate_confidence prices current OrderSide.buy } := by
        simp only [Donchian.get_signal, hh]
        rw [if_neg (not_lt_of_ge hlen), if_pos hbreak]
      exact ⟨_, heq, rfl, rfl, rfl⟩
    · intro hbreak
      have hno : ¬ list_max prices < current :=
        not_lt_of_ge (le_trans (le_of_lt hbreak) (list_min_le_list_max hne))
      have heq : s.get_signal symbol current = some
          { action := OrderSide.sell, entry_price := current,
            stop_loss := list_max prices,
            take_profit := current -
              (list_max prices - current) * s.risk_reward_ratio,
            confidence :=
              Donchian.calculate_confidence prices current OrderSide.sell } := by
        simp only [Donchian.get_signal, hh]
        rw [if_neg (not_lt_of_ge hlen), if_neg hno, if_pos hbreak]
      exact ⟨_, heq, rfl, rfl, rfl⟩
    · intro hlo hhi
      simp only [Donchian.get_signal, hh]
      rw [if_neg (not_lt_of_ge hlen), if_neg (not_lt_of_ge hhi),
          if_neg (not_lt_of_ge hlo)]
  · simp only [s3_eq, Donchian.get_signal, Donchian.history]
    norm_num [list_max, list_min, max_def, min_def]
  · simp only [s3_eq, Donchian.get_signal, Donchian.history]
    norm_num [list_max, list_min, max_def, min_def]
  · simp only [s3_eq, Donchian.get_signal, Donchian.history]
    norm_num [list_max, list_min, max_def, min_def]

/-- Witness for C8: the period-3 strategy with window `[10, 12, 11]` at
price 13 emits a buy signal with stop 10 and take-profit 19. -/
theorem C8_witness :
    ∃ sig, s3.get_signal "X" 13 = some sig ∧ sig.action = OrderSide.buy ∧
      sig.stop_loss = 10 ∧ sig.take_profit = 19 := by
  have hh : s3.history "X" = some [10, 12, 11] := by
    simp [s3_eq, Donchian.history]
  obtain ⟨sig, h1, h2, h3, h4⟩ :=
    ((C8_donchian_get_signal s3 "X" [10, 12, 11] 13 hh).2.1
      (by simp [s3_eq]) (by simp)).1 (by norm_num [list_max, max_def])
  refine ⟨sig, h1, h2, ?_, ?_⟩
  · rw [h3]; norm_num [list_min, min_def]
  · rw [h4]; norm_num [list_min, min_def, s3_eq]

/-! ### C1 — market order without market data -/

/-- C1 counterexample: on a started engine whose `"BTC"` has never
received a tick, `place_order("BTC", buy, market, 1)` returns success
(`ok = true` with the order id), and the order IS stored (marked
`rejected`) — not the failure-without-storing the claim states. -/
theorem C1_counterexample :
    e_run.market_price "BTC" = none ∧
    (e_run.place_order "BTC" OrderSide.buy OrderType.market 1).2 =
      Outcome.ret true Msg.orderPlaced (some 0) ∧
    eA.orders.map (fun o => (o.id, o.status)) = [(0, OrderStatus.rejected)] := by
  refine ⟨by simp [e_run_eq, Engine.market_price], ?_, by simp [eA_eq]⟩
  simp [e_run_eq, Engine.place_order, RiskManager.validate_order,
    Engine.execute_market_order, Engine.market_price, Engine.set_order]
  norm_num

/-- Replacing every element whose key is `k` is the identity on a list
containing no such key. -/
lemma map_replace_eq_self {α β : Type} [DecidableEq β] (key : α → β) (l : List α)
    (k : β) (b : α) (h : ∀ x ∈ l, key x ≠ k) :
    List.map (fun x => if key x = k then b else x) l = l := by
  induction l with
  | nil => rfl
  | cons a t ih =>
      simp only [List.map_cons, if_neg (h a (List.mem_cons_self a t))]
      rw [ih (fun x hx => h x (List.mem_cons_of_mem a hx))]

/-- C1 (amended): a market order on a running engine for a symbol that has
never received a tick, passing risk validation (no daily-loss breach,
positions below the limit, positive quantity), is stored with status
`rejected`, no trade is recorded and the balance is unchanged — but
`place_order` returns success `(true, ..., order_id)`, not a failure. -/
theorem C1_no_market_data (e : Engine) (symbol : String) (side : OrderSide)
    (q : ℚ) (p sp : Option ℚ)
    (hrun : e.is_running = true)
    (hmd : e.market_price symbol = none)
    (hdaily : ¬ e.risk_manager.daily_pnl ≤
        -e.current_balance * e.risk_manager.max_daily_loss)
    (hpos : e.positions.length < e.risk_manager.max_positions)
    (hq : 0 < q)
    (hfresh : ∀ o ∈ e.orders, o.id ≠ e.next_id) :
    e.place_order symbol side OrderType.market q p sp =
      ({ e with
          orders := e.orders ++
            [{ id := e.next_id, symbol := symbol, side := side,
               type := OrderType.market, quantity := q, price := p,
               stop_price := sp, status := OrderStatus.rejected }],
          next_id := e.next_id + 1 },
       Outcome.ret true Msg.orderPlaced (some e.next_id)) := by
  have hval : e.risk_manager.validate_order
      { id := e.next_id, symbol := symbol, side := side, type := OrderType.market,
        quantity := q, price := p, stop_price := sp } e.current_balance e.positions
      = .ok := by
    simp only [RiskManager.validate_order]
    rw [if_neg hdaily, if_neg (not_le_of_lt hpos), if_neg (not_le_of_lt hq),
        if_neg (by simp)]
  have hmd' : e.market_data.find? (fun x => x.1 = symbol) = none := by
    simpa [Engine.market_price, Option.map_eq_none'] using hmd
  simp only [Engine.place_order, hrun, Bool.not_true, not_true_eq_false,
    if_false, hval]
  simp only [Engine.execute_market_order, Engine.market_price, hmd',
    Option.map_none', Engine.set_order, List.map_append, List.map_cons,
    List.map_nil, if_pos rfl, if_true]
  refine Prod.ext ?_ rfl
  simp only [Engine.mk.injEq, and_true, true_and]
  congr 1
  exact map_replace_eq_self (fun o : Order => o.id) e.orders e.next_id _ hfresh

/-- Witness for C1 at the concrete scenario: started engine, no tick,
market buy of 1 `"BTC"`; all hypotheses discharged concretely. -/
theorem C1_witness :
    e_run.place_order "BTC" OrderSide.buy OrderType.market 1 none none =
      ({ e_run with
          orders := [{ id := 0, symbol := "BTC", side := OrderSide.buy,
                       type := OrderType.market, quantity := 1, price := none,
                       stop_price := none, status := OrderStatus.rejected }],
          next_id := 1 },
       Outcome.ret true Msg.orderPlaced (some 0)) := by
  have h := C1_no_market_data e_run "BTC" OrderSide.buy 1 none none rfl
    (by simp [e_run_eq, Engine.market_price])
    (by rw [e_run_eq]; norm_num)
    (by rw [e_run_eq]; norm_num)
    (by norm_num)
    (by rw [e_run_eq]; simp)
  simpa [e_run_eq] using h

/-! ### C4 — cancellation and terminal statuses -/

/-- After replacing, in a list, every element keyed like the first
`k`-keyed element by `b` (itself keyed `k`), searching for key `k` finds
`b`. -/
lemma find_replace_found {α β : Type} [DecidableEq β] (key : α → β) (l : List α)
    {k : β} {a : α} (b : α)
    (h : l.find? (fun x => key x = k) = some a) (hb : key b = key a) :
    (l.map (fun x => if key x = key a then b else x)).find?
      (fun x => key x = k) = some b := by
  have hak : key a = k := by simpa using List.find?_some h
  induction l with
  | nil => simp at h
  | cons c t ih =>
      by_cases hc : key c = k
      · rw [List.find?_cons_of_pos _ (by simpa using hc)] at h
        injection h with h'
        subst h'
        simp only [List.map_cons, if_pos rfl]
        exact List.find?_cons_of_pos _ (by simpa [hb] using hc)
      · rw [List.find?_cons_of_neg _ (by simpa using hc)] at h
        have hca : ¬ key c = key a := fun hh => hc (hh.trans hak)
        simp only [List.map_cons, if_neg hca]
        rw [List.find?_cons_of_neg _ (by simpa using hc)]
        exact ih h

/-- C4 counterexample: in scenario A the stored order 0 is `rejected` — a
terminal status per the claim — yet `cancel_order` succeeds and moves it
to `cancelled`. -/
theorem C4_counterexample :
    (eA.orders.map (fun o => (o.id, o.status))) = [(0, OrderStatus.rejected)] ∧
    (eA.cancel_order 0).2.1 = true ∧
    ((eA.cancel_order 0).1.orders.map (fun o => (o.id, o.status))) =
      [(0, OrderStatus.cancelled)] := by
  refine ⟨by simp [eA_eq], ?_, ?_⟩ <;>
    simp [eA_eq, Engine.cancel_order, Engine.set_order]

/-- C4 (amended): `cancel_order` succeeds iff the order exists and its
status is neither `filled` nor `cancelled`, in which case the status
becomes `cancelled` and positions, trades and balance are untouched; a
`filled` or `cancelled` order yields failure with the state unchanged.
(`rejected` is NOT protected: a rejected — terminal — order can still be
cancelled, unlike the claim's reading.) -/
theorem C4_cancel_order (e : Engine) (oid : Nat) :
    (e.orders.find? (fun o => o.id = oid) = none →
        e.cancel_order oid = (e, false, Msg.orderNotFound)) ∧
    (∀ o, e.orders.find? (fun o => o.id = oid) = some o →
      ((o.status = OrderStatus.filled ∨ o.status = OrderStatus.cancelled) →
          e.cancel_order oid = (e, false, Msg.cannotCancel)) ∧
      (¬ (o.status = OrderStatus.filled ∨ o.status = OrderStatus.cancelled) →
          (e.cancel_order oid).2.1 = true ∧
          (e.cancel_order oid).2.2 = Msg.orderCancelled ∧
          ((e.cancel_order oid).1.orders.find? (fun x => x.id = oid)).map
              (·.status) = some OrderStatus.cancelled ∧
          (e.cancel_order oid).1.positions = e.positions ∧
          (e.cancel_order oid).1.trades = e.trades ∧
          (e.cancel_order oid).1.current_balance = e.current_balance)) := by
  constructor
  · intro h
    simp [Engine.cancel_order, h]
  · intro o ho
    constructor
    · intro hterm
      simp [Engine.cancel_order, ho, hterm]
    · intro hterm
      have hres : e.cancel_order oid =
          (e.set_order { o with status := OrderStatus.cancelled }, true,
            Msg.orderCancelled) := by
        simp [Engine.cancel_order, ho, hterm]
      rw [hres]
      refine ⟨rfl, rfl, ?_, rfl, rfl, rfl⟩
      simp only [Engine.set_order]
      rw [find_replace_found (fun x : Order => x.id) e.orders
        { o with status := OrderStatus.cancelled } ho rfl]
      rfl

/-- Witness for C4: cancelling the (rejected) stored order of scenario A
succeeds and the stored status becomes `cancelled`. -/
theorem C4_witness :
    (eA.cancel_order 0).2.1 = true ∧
    (eA.cancel_order 0).2.2 = Msg.orderCancelled ∧
    ((eA.cancel_order 0).1.orders.find? (fun x => x.id = 0)).map (·.status) =
      some OrderStatus.cancelled := by
  have hfind : eA.orders.find? (fun o => o.id = 0) = some
      { id := 0, symbol := "BTC", side := OrderSide.buy, type := OrderType.market,
        quantity := 1, price := none, stop_price := none,
        status := OrderStatus.rejected } := by
    simp [eA_eq]
  have h := ((C4_cancel_order eA 0).2 _ hfind).2 (by simp)
  exact ⟨h.1, h.2.1, h.2.2.1⟩

/-! ### C5 — closing positions -/

/-- C5 counterexample: scenario B's engine holds position 2 (2 units of
`"BTC"`), then the engine is stopped.  `close_position(2)` with the default
full quantity — which the claim says must succeed — fails with the
engine-stopped message (neither `PositionNotFound` nor `OverClose`). -/
theorem C5_counterexample :
    eB2.stop.positions.map (fun p => (p.id, p.quantity)) = [((2 : Nat), (2 : ℚ))] ∧
    (eB2.stop.close_position 2 none).2 = Outcome.ret false Msg.engineStopped none := by
  constructor
  · simp [Engine.stop, eB2_eq]
  · simp [Engine.stop, eB2_eq, Engine.close_position, py_or_quantity]

/-- C5 (amended): `close_position` fails with `PositionNotFound` when the
id names no position and with `OverClose` when the requested quantity
exceeds the position's (`None` — or `0`, by Python truthiness — meaning
the full size).  Otherwise it calls `place_order` while already holding
the engine's non-reentrant lock: `place_order`'s pre-lock failures are
returned (the engine-stopped message on a stopped engine, the risk reason
when validation rejects, a `TypeError` crash on the impossible-here
priceless-limit path), but when validation passes — in particular on
every valid close of a running engine within the risk limits —
`place_order` blocks re-acquiring the lock and `close_position`
deadlocks; it never succeeds. -/
theorem C5_close_position (e : Engine) (pid : Nat) (q : Option ℚ) :
    (e.positions.find? (fun p => p.id = pid) = none →
        e.close_position pid q = (e, Outcome.ret false Msg.positionNotFound none)) ∧
    (∀ pos, e.positions.find? (fun p => p.id = pid) = some pos →
      ∀ cq : ℚ, cq = py_or_quantity q pos.quantity →
        (pos.quantity < cq →
            e.close_position pid q = (e, Outcome.ret false Msg.overClose none)) ∧
        (cq ≤ pos.quantity →
          (e.is_running = false →
              e.close_position pid q =
                (e, Outcome.ret false Msg.engineStopped none)) ∧
          (e.is_running = true →
            ∀ v, e.risk_manager.validate_order
                { id := e.next_id, symbol := pos.symbol,
                  side := if pos.side = PositionSide.long then OrderSide.sell
                          else OrderSide.buy,
                  type := OrderType.market, quantity := cq,
                  price := none, stop_price := none }
                e.current_balance e.positions = v →
              (v = ValidationResult.ok →
                  e.close_position pid q = (e, Outcome.deadlocked)) ∧
              (v = ValidationResult.dailyLossLimitReached →
                  e.close_position pid q =
                    (e, Outcome.ret false Msg.dailyLossLimitReached none)) ∧
              (v = ValidationResult.positionLimitReached →
                  e.close_position pid q =
                    (e, Outcome.ret false Msg.positionLimitReached none)) ∧
              (v = ValidationResult.invalidQuantity →
                  e.close_position pid q =
                    (e, Outcome.ret false Msg.invalidQuantity none)) ∧
              (v = ValidationResult.invalidPrice →
                  e.close_position pid q =
                    (e, Outcome.ret false Msg.invalidPrice none)) ∧
              (v = ValidationResult.typeError →
                  e.close_position pid q = (e, Outcome.crashed))))) := by
  constructor
  · intro h
    simp [Engine.close_position, h]
  · intro pos hfind cq hcq
    constructor
    · intro hover
      simp only [Engine.close_position, hfind]
      rw [← hcq, if_pos hover]
    · intro hle
      constructor
      · intro hstop
        simp only [Engine.close_position, hfind]
        rw [← hcq, if_neg (not_lt_of_ge hle),
            if_pos (by simp [hstop] : ¬ e.is_running = true)]
      · intro hrun v hv
        refine ⟨?_, ?_, ?_, ?_, ?_, ?_⟩ <;>
          · intro hveq
            subst hveq
            simp only [Engine.close_position, hfind]
            rw [← hcq, if_neg (not_lt_of_ge hle),
                if_neg (not_not_intro hrun), hv]

/-- Witness for C5: closing position 2 of the running scenario-B engine in
full — an existing position, a valid quantity, validation passing —
does not succeed: it deadlocks when `place_order` re-acquires the engine
lock. -/
theorem C5_witness :
    eB2.close_position 2 none = (eB2, Outcome.deadlocked) := by
  have hfind : eB2.positions.find? (fun p => p.id = 2) = some
      { id := 2, symbol := "BTC", side := PositionSide.long, quantity := 2,
        entry_price := 100, current_price := 100 } := by
    simp [eB2_eq]
  have hval : eB2.risk_manager.validate_order
      { id := eB2.next_id, symbol := "BTC", side := OrderSide.sell,
        type := OrderType.market, quantity := 2, price := none,
        stop_price := none } eB2.current_balance eB2.positions =
      ValidationResult.ok := by
    rw [eB2_eq]
    norm_num [RiskManager.validate_order]
    simp
  exact (((((C5_close_position eB2 2 none).2 _ hfind 2 rfl).2 (le_refl 2)).2
    (by simp [eB2_eq]) ValidationResult.ok hval).1 rfl)

/-! ### C3 — netting a fill into an existing position -/

/-- If `pos` is the first `sym`-position of `l` and `upd` also carries
`sym`, then after replacing every element sharing `pos`'s id by `upd`, the
first `sym`-position is `upd`. -/
lemma find_symbol_replace (l : List Position) {sym : String} {pos : Position}
    (upd : Position) (h : l.find? (fun p => p.symbol = sym) = some pos)
    (hs : upd.symbol = sym) :
    (l.map (fun x => if x.id = pos.id then upd else x)).find?
      (fun p => p.symbol = sym) = some upd := by
  induction l with
  | nil => simp at h
  | cons c t ih =>
      by_cases hc : c.symbol = sym
      · rw [List.find?_cons_of_pos _ (by simpa using hc)] at h
        injection h with h'
        subst h'
        simp only [List.map_cons, if_pos rfl]
        exact List.find?_cons_of_pos _ (by simpa using hs)
      · rw [List.find?_cons_of_neg _ (by simpa using hc)] at h
        simp only [List.map_cons]
        by_cases hid : c.id = pos.id
        · rw [if_pos hid]
          exact List.find?_cons_of_pos _ (by simpa using hs)
        · rw [if_neg hid]
          rw [List.find?_cons_of_neg _ (by simpa using hc)]
          exact ih h

/-- Dropping the unique element carrying `pos`'s id shortens the list by
exactly one. -/
lemma filter_ne_id_length (l : List Position) (pos : Position) (hmem : pos ∈ l)
    (hnd : (l.map (·.id)).Nodup) :
    (l.filter (fun x => ¬ x.id = pos.id)).length + 1 = l.length := by
  induction l with
  | nil => simp at hmem
  | cons c t ih =>
      simp only [List.map_cons, List.nodup_cons] at hnd
      by_cases hc : c.id = pos.id
      · have ht : t.filter (fun x => ¬ x.id = pos.id) = t :=
          List.filter_eq_self.mpr (fun a ha => by
            simp only [decide_not, Bool.not_eq_true']
            simp only [decide_eq_false_iff_not]
            intro hh
            exact hnd.1 (hc ▸ hh ▸ List.mem_map_of_mem (·.id) ha))
        rw [List.filter_cons_of_neg (by simpa using hc), ht]
        simp
      · have hpt : pos ∈ t := by
          rcases List.mem_cons.mp hmem with h' | h'
          · exact absurd (congrArg (·.id) h'.symm) (by simpa using hc)
          · exact h'
        rw [List.filter_cons_of_pos (by simpa using hc)]
        simp only [List.length_cons]
        rw [← ih hpt hnd.2]

/-- C3 counterexample: in scenario B a long position of 2 `"BTC"` at entry
100 is hit by an opposite-direction sell of 1 at price 110 (strictly less
than the position quantity).  The quantity is reduced to 1, but no
realized PnL is credited anywhere: the position's `realized_pnl` stays 0
and the risk manager's daily PnL stays 0, although the closed portion's
profit is `(110 − 100) × 1 = 10 ≠ 0`. -/
theorem C3_counterexample :
    eB3.positions.map (fun p => (p.side, p.quantity, p.entry_price, p.realized_pnl)) =
      [(PositionSide.long, (2 : ℚ), (100 : ℚ), (0 : ℚ))] ∧
    eB4.trades.map (fun t => (t.side, t.quantity, t.price)) =
      [(OrderSide.buy, (2 : ℚ), (100 : ℚ)), (OrderSide.sell, (1 : ℚ), (110 : ℚ))] ∧
    eB4.positions.map (fun p => (p.quantity, p.realized_pnl)) = [((1 : ℚ), (0 : ℚ))] ∧
    eB4.risk_manager.daily_pnl = 0 ∧
    ((110 : ℚ) - 100) * 1 ≠ 0 := by
  refine ⟨by simp [eB3_eq], by simp [eB4_eq], by simp [eB4_eq],
    by simp [eB4_eq], by norm_num⟩

/-- C3 (amended): netting a trade into the symbol's existing position —
same direction: entry price becomes the quantity-weighted average and the
quantity increases by the trade quantity; opposite direction with
`trade.qty < position.qty`: the quantity is reduced by the trade quantity
while entry price and the position's `realized_pnl` are left unchanged (no
realized PnL is credited for the closed portion); opposite direction with
`trade.qty ≥ position.qty`: the position is removed and no flipped
position is created for the excess. -/
theorem C3_position_netting (e : Engine) (t : Trade) (pos : Position)
    (hfind : find_position_by_symbol e.positions t.symbol = some pos)
    (hnd : (e.positions.map (·.id)).Nodup) :
    (((pos.side = PositionSide.long ∧ t.side = OrderSide.buy) ∨
      (pos.side = PositionSide.short ∧ t.side = OrderSide.sell)) →
        find_position_by_symbol (e.update_position_from_trade t).positions
            t.symbol =
          some { pos with
                 entry_price := (pos.quantity * pos.entry_price +
                   t.quantity * t.price) / (pos.quantity + t.quantity),
                 quantity := pos.quantity + t.quantity } ∧
        (e.update_position_from_trade t).positions.length =
          e.positions.length) ∧
    (¬ ((pos.side = PositionSide.long ∧ t.side = OrderSide.buy) ∨
        (pos.side = PositionSide.short ∧ t.side = OrderSide.sell)) →
      (t.quantity < pos.quantity →
        find_position_by_symbol (e.update_position_from_trade t).positions
            t.symbol =
          some { pos with quantity := pos.quantity - t.quantity } ∧
        (e.update_position_from_trade t).positions.length =
          e.positions.length) ∧
      (pos.quantity ≤ t.quantity →
        (∀ p, p ∈ (e.update_position_from_trade t).positions ↔
            p ∈ e.positions ∧ p.id ≠ pos.id) ∧
        (e.update_position_from_trade t).positions.length + 1 =
          e.positions.length)) := by
  have hsym : pos.symbol = t.symbol := by
    simpa using List.find?_some hfind
  have hmem : pos ∈ e.positions := List.mem_of_find?_eq_some hfind
  constructor
  · intro hdir
    simp only [Engine.update_position_from_trade, hfind, if_pos hdir]
    constructor
    · exact find_symbol_replace e.positions _ hfind hsym
    · exact List.length_map _ _
  · intro hdir
    constructor
    · intro hlt
      simp only [Engine.update_position_from_trade, hfind, if_neg hdir,
        if_neg (not_le_of_lt hlt)]
      constructor
      · exact find_symbol_replace e.positions _ hfind hsym
      · exact List.length_map _ _
    · intro hle
      simp only [Engine.update_position_from_trade, hfind, if_neg hdir,
        if_pos hle]
      constructor
      · intro p
        simp [List.mem_filter]
      · exact filter_ne_id_length e.positions pos hmem hnd

/-- Witness for C3 at the concrete reduction of scenario B: selling 1 of
the long-2 `"BTC"` position at 110 leaves a position of quantity 1 with
entry price and `realized_pnl` untouched. -/
theorem C3_witness :
    find_position_by_symbol
        (eB3.update_position_from_trade
          { id := 4, order_id := 3, symbol := "BTC", side := OrderSide.sell,
            quantity := 1, price := 110 }).positions "BTC" =
      some { id := 2, symbol := "BTC", side := PositionSide.long,
             quantity := 1, entry_price := 100, current_price := 110,
             unrealized_pnl := 20 } := by
  have hfind : find_position_by_symbol eB3.positions "BTC" = some
      { id := 2, symbol := "BTC", side := PositionSide.long, quantity := 2,
        entry_price := 100, current_price := 110, unrealized_pnl := 20 } := by
    simp [eB3_eq, find_position_by_symbol]
  have h := ((C3_position_netting eB3
      { id := 4, order_id := 3, symbol := "BTC", side := OrderSide.sell,
        quantity := 1, price := 110 } _ hfind (by simp [eB3_eq])).2
      (by simp) ).1 (by norm_num)
  rw [h.1]
  norm_num [Position.mk.injEq]

/-! ### C9 — position-collection invariant -/

/-- The engine well-formedness invariant maintained by every public
operation: stored orders have positive quantity, positions have positive
quantity, at most one position per symbol, pairwise-distinct position ids,
and every position id is below the fresh-id counter. -/
structure EngineInv (e : Engine) : Prop where
  orders_qty : ∀ o ∈ e.orders, 0 < o.quantity
  pos_qty : ∀ p ∈ e.positions, 0 < p.quantity
  sym_nodup : (e.positions.map (·.symbol)).Nodup
  id_nodup : (e.positions.map (·.id)).Nodup
  id_lt : ∀ p ∈ e.positions, p.id < e.next_id

/-- Mapping an observation over a pointwise-observation-preserving map. -/
lemma map_obs_eq {α β : Type} (obs : α → β) (f : α → α) (l : List α)
    (h : ∀ x ∈ l, obs (f x) = obs x) :
    (l.map f).map obs = l.map obs := by
  rw [List.map_map]
  exact List.map_congr_left (fun a ha => h a ha)

/-- Two members of a list with pairwise-distinct ids that share an id are
equal. -/
lemma mem_id_eq {l : List Position} (hnd : (l.map (·.id)).Nodup)
    {x pos : Position} (hx : x ∈ l) (hp : pos ∈ l) (h : x.id = pos.id) :
    x = pos :=
  List.inj_on_of_nodup_map hnd hx hp h

/-- Replacing the unique position with `pos`'s id by `upd` (same id and
symbol) keeps memberships within `{upd} ∪ l` and preserves the symbol and
id lists. -/
lemma positions_replace_inv {l : List Position} {pos : Position}
    (upd : Position) (hmem : pos ∈ l) (hnd : (l.map (·.id)).Nodup)
    (hid : upd.id = pos.id) (hsym : upd.symbol = pos.symbol) :
    (∀ x ∈ l.map (fun x => if x.id = pos.id then upd else x),
        x = upd ∨ x ∈ l) ∧
    (l.map (fun x => if x.id = pos.id then upd else x)).map (·.symbol) =
        l.map (·.symbol) ∧
    (l.map (fun x => if x.id = pos.id then upd else x)).map (·.id) =
        l.map (·.id) := by
  refine ⟨?_, ?_, ?_⟩
  · intro x hx
    obtain ⟨y, hy, rfl⟩ := List.mem_map.mp hx
    by_cases h : y.id = pos.id
    · left; rw [if_pos h]
    · right; rw [if_neg h]; exact hy
  · apply map_obs_eq
    intro x hxl
    by_cases h : x.id = pos.id
    · have hxp := mem_id_eq hnd hxl hmem h
      rw [if_pos h, hsym, hxp]
    · rw [if_neg h]
  · apply map_obs_eq
    intro x hxl
    by_cases h : x.id = pos.id
    · rw [if_pos h, hid, h]
    · rw [if_neg h]

/-- Netting a positive-quantity trade preserves the engine invariant; it
leaves `orders` untouched and never decreases `next_id`. -/
lemma inv_update_position_from_trade {e : Engine} {t : Trade}
    (h : EngineInv e) (ht : 0 < t.quantity) :
    EngineInv (e.update_position_from_trade t) := by
  cases hfind : find_position_by_symbol e.positions t.symbol with
  | none =>
      have hnosym : ∀ x ∈ e.positions, x.symbol ≠ t.symbol := by
        intro x hx
        have := List.find?_eq_none.mp hfind x hx
        simpa using this
      simp only [Engine.update_position_from_trade, hfind]
      refine ⟨h.orders_qty, ?_, ?_, ?_, ?_⟩
      · intro p hp
        rcases List.mem_append.mp hp with hp | hp
        · exact h.pos_qty p hp
        · rw [List.mem_singleton.mp hp]
          exact ht
      · rw [List.map_append]
        simp only [List.map_cons, List.map_nil]
        rw [List.nodup_append]
        refine ⟨h.sym_nodup, List.nodup_singleton _, ?_⟩
        intro s hs hs'
        obtain ⟨x, hx, rfl⟩ := List.mem_map.mp hs
        exact hnosym x hx (List.mem_singleton.mp hs')
      · rw [List.map_append]
        simp only [List.map_cons, List.map_nil]
        rw [List.nodup_append]
        refine ⟨h.id_nodup, List.nodup_singleton _, ?_⟩
        intro i hi hi'
        obtain ⟨x, hx, rfl⟩ := List.mem_map.mp hi
        have hlt := h.id_lt x hx
        rw [List.mem_singleton.mp hi'] at hlt
        exact lt_irrefl _ hlt
      · intro p hp
        rcases List.mem_append.mp hp with hp | hp
        · exact Nat.lt_succ_of_lt (h.id_lt p hp)
        · rw [List.mem_singleton.mp hp]
          exact Nat.lt_succ_self _
  | some pos =>
      have hmem : pos ∈ e.positions := List.mem_of_find?_eq_some hfind
      have hposq : 0 < pos.quantity := h.pos_qty pos hmem
      simp only [Engine.update_position_from_trade, hfind]
      by_cases hdir : (pos.side = PositionSide.long ∧ t.side = OrderSide.buy) ∨
          (pos.side = PositionSide.short ∧ t.side = OrderSide.sell)
      · rw [if_pos hdir]
        obtain ⟨hmm, hsym, hids⟩ := positions_replace_inv
          { pos with
            entry_price := (pos.quantity * pos.entry_price +
              t.quantity * t.price) / (pos.quantity + t.quantity),
            quantity := pos.quantity + t.quantity } hmem h.id_nodup rfl rfl
        refine ⟨h.orders_qty, ?_, ?_, ?_, ?_⟩
        · intro p hp
          rcases hmm p hp with rfl | hp'
          · exact add_pos hposq ht
          · exact h.pos_qty p hp'
        · rw [hsym]; exact h.sym_nodup
        · rw [hids]; exact h.id_nodup
        · intro p hp
          rcases hmm p hp with rfl | hp'
          · exact h.id_lt pos hmem
          · exact h.id_lt p hp'
      · rw [if_neg hdir]
        by_cases hle : pos.quantity ≤ t.quantity
        · rw [if_pos hle]
          have hsub : (e.positions.filter (fun x => ¬ x.id = pos.id)).Sublist
              e.positions := List.filter_sublist _
          refine ⟨h.orders_qty, ?_, ?_, ?_, ?_⟩
          · intro p hp
            exact h.pos_qty p (hsub.mem hp)
          · exact List.Nodup.sublist (hsub.map (·.symbol)) h.sym_nodup
          · exact List.Nodup.sublist (hsub.map (·.id)) h.id_nodup
          · intro p hp
            exact h.id_lt p (hsub.mem hp)
        · rw [if_neg hle]
          obtain ⟨hmm, hsym, hids⟩ := positions_replace_inv
            { pos with quantity := pos.quantity - t.quantity } hmem h.id_nodup
            rfl rfl
          refine ⟨h.orders_qty, ?_, ?_, ?_, ?_⟩
          · intro p hp
            rcases hmm p hp with rfl | hp'
            · simpa using sub_pos.mpr (lt_of_not_ge hle)
            · exact h.pos_qty p hp'
          · rw [hsym]; exact h.sym_nodup
          · rw [hids]; exact h.id_nodup
          · intro p hp
            rcases hmm p hp with rfl | hp'
            · exact h.id_lt pos hmem
            · exact h.id_lt p hp'

/-- Replacing orders keyed `k` by a positive-quantity order keeps all
stored quantities positive. -/
lemma orders_qty_after_set {l : List Order} (h : ∀ o ∈ l, 0 < o.quantity)
    (b : Order) (hb : 0 < b.quantity) (k : Nat) :
    ∀ o ∈ l.map (fun x => if x.id = k then b else x), 0 < o.quantity := by
  intro o ho
  obtain ⟨y, hy, rfl⟩ := List.mem_map.mp ho
  by_cases hk : y.id = k
  · rw [if_pos hk]; exact hb
  · rw [if_neg hk]; exact h y hy

/-- Changing only the cash balance does not affect the invariant. -/
lemma inv_set_balance {e : Engine} (h : EngineInv e) (c : ℚ) :
    EngineInv { e with current_balance := c } :=
  ⟨h.orders_qty, h.pos_qty, h.sym_nodup, h.id_nodup, h.id_lt⟩

/-- Appending trades and bumping the id counter does not affect the
invariant. -/
lemma inv_add_trade_bump {e : Engine} (h : EngineInv e) (ts : List Trade) :
    EngineInv { e with trades := ts, next_id := e.next_id + 1 } :=
  ⟨h.orders_qty, h.pos_qty, h.sym_nodup, h.id_nodup,
    fun p hp => Nat.lt_succ_of_lt (h.id_lt p hp)⟩

/-- An order passing validation has positive quantity. -/
lemma validate_ok_quantity {rm : RiskManager} {ord : Order} {b : ℚ}
    {ps : List Position} (h : rm.validate_order ord b ps = .ok) :
    0 < ord.quantity := by
  by_contra hq
  simp only [RiskManager.validate_order] at h
  by_cases h1 : rm.daily_pnl ≤ -b * rm.max_daily_loss
  · rw [if_pos h1] at h; exact absurd h (by simp)
  · rw [if_neg h1] at h
    by_cases h2 : rm.max_positions ≤ ps.length
    · rw [if_pos h2] at h; exact absurd h (by simp)
    · rw [if_neg h2, if_pos (le_of_not_lt hq)] at h
      exact absurd h (by simp)

/-- Executing a positive-quantity market order preserves the invariant. -/
lemma inv_execute_market_order {e : Engine} {order : Order}
    (h : EngineInv e) (hq : 0 < order.quantity) :
    EngineInv (e.execute_market_order order) := by
  cases hmp : e.market_price order.symbol with
  | none =>
      simp only [Engine.execute_market_order, hmp, Engine.set_order]
      exact ⟨orders_qty_after_set h.orders_qty
        { order with status := OrderStatus.rejected } hq _, h.pos_qty,
        h.sym_nodup, h.id_nodup, h.id_lt⟩
  | some price =>
      have h1 : EngineInv
          (e.set_order
            { order with
              status := OrderStatus.filled, filled_quantity := order.quantity,
              average_price := price }) := by
        simp only [Engine.set_order]
        exact ⟨orders_qty_after_set h.orders_qty
          { order with
            status := OrderStatus.filled, filled_quantity := order.quantity,
            average_price := price } hq _, h.pos_qty, h.sym_nodup,
          h.id_nodup, h.id_lt⟩
      simp only [Engine.execute_market_order, hmp]
      split
      · exact inv_set_balance (inv_update_position_from_trade
          (inv_add_trade_bump h1 _) hq) _
      · exact inv_set_balance (inv_update_position_from_trade
          (inv_add_trade_bump h1 _) hq) _

/-- `place_order` preserves the invariant. -/
lemma inv_place_order {e : Engine} (h : EngineInv e) (symbol : String)
    (side : OrderSide) (ty : OrderType) (q : ℚ) (p sp : Option ℚ) :
    EngineInv (e.place_order symbol side ty q p sp).1 := by
  by_cases hrun : e.is_running = true
  · cases hval : e.risk_manager.validate_order
        { id := e.next_id, symbol := symbol, side := side, type := ty,
          quantity := q, price := p, stop_price := sp }
        e.current_balance e.positions with
    | ok =>
        have hq : 0 < q := validate_ok_quantity hval
        have h1 : EngineInv
            { e with
              orders := e.orders ++
                [{ id := e.next_id, symbol := symbol, side := side, type := ty,
                   quantity := q, price := p, stop_price := sp }],
              next_id := e.next_id + 1 } := by
          refine ⟨?_, h.pos_qty, h.sym_nodup, h.id_nodup,
            fun x hx => Nat.lt_succ_of_lt (h.id_lt x hx)⟩
          intro o ho
          rcases List.mem_append.mp ho with ho | ho
          · exact h.orders_qty o ho
          · rw [List.mem_singleton.mp ho]
            exact hq
        simp only [Engine.place_order, if_neg (not_not_intro hrun), hval]
        by_cases hty : ty = OrderType.market
        · rw [if_pos hty]
          refine inv_execute_market_order h1 ?_
          exact hq
        · rw [if_neg hty]
          exact h1
    | dailyLossLimitReached =>
        simp only [Engine.place_order, if_neg (not_not_intro hrun), hval]
        exact h
    | positionLimitReached =>
        simp only [Engine.place_order, if_neg (not_not_intro hrun), hval]
        exact h
    | invalidQuantity =>
        simp only [Engine.place_order, if_neg (not_not_intro hrun), hval]
        exact h
    | invalidPrice =>
        simp only [Engine.place_order, if_neg (not_not_intro hrun), hval]
        exact h
    | typeError =>
        simp only [Engine.place_order, if_neg (not_not_intro hrun), hval]
        exact h
  · simp only [Engine.place_order, if_pos hrun]
    exact h

/-- `cancel_order` preserves the invariant. -/
lemma inv_cancel_order {e : Engine} (h : EngineInv e) (oid : Nat) :
    EngineInv (e.cancel_order oid).1 := by
  cases hfind : e.orders.find? (fun o => o.id = oid) with
  | none =>
      simp only [Engine.cancel_order, hfind]
      exact h
  | some o =>
      by_cases hterm : o.status = OrderStatus.filled ∨ o.status = OrderStatus.cancelled
      · simp only [Engine.cancel_order, hfind, if_pos hterm]
        exact h
      · simp only [Engine.cancel_order, hfind, if_neg hterm, Engine.set_order]
        exact ⟨orders_qty_after_set h.orders_qty
          { o with status := OrderStatus.cancelled }
          (h.orders_qty o (List.mem_of_find?_eq_some hfind)) _,
          h.pos_qty, h.sym_nodup, h.id_nodup, h.id_lt⟩

/-- Every path of `close_position` returns before mutating any state (its
non-error paths are `place_order`'s pre-lock failures or the deadlock). -/
lemma close_position_fst (e : Engine) (pid : Nat) (q : Option ℚ) :
    (e.close_position pid q).1 = e := by
  simp only [Engine.close_position]
  split
  · rfl
  · split
    · rfl
    · split
      · rfl
      · split <;> rfl

/-- `close_position` preserves the invariant. -/
lemma inv_close_position {e : Engine} (h : EngineInv e) (pid : Nat)
    (q : Option ℚ) :
    EngineInv (e.close_position pid q).1 := by
  rw [close_position_fst]
  exact h

/-- Mark-to-market leaves every position's symbol unchanged. -/
lemma mark_map_symbol (l : List Position) (symbol : String) (price : ℚ) :
    (l.map (fun p =>
      if p.symbol = symbol then
        { p with current_price := price,
                 unrealized_pnl :=
                   if p.side = PositionSide.long then
                     (price - p.entry_price) * p.quantity
                   else (p.entry_price - price) * p.quantity }
      else p)).map (·.symbol) = l.map (·.symbol) := by
  apply map_obs_eq
  intro x _
  by_cases hs : x.symbol = symbol
  · rw [if_pos hs]
  · rw [if_neg hs]

/-- Mark-to-market leaves every position's id unchanged. -/
lemma mark_map_id (l : List Position) (symbol : String) (price : ℚ) :
    (l.map (fun p =>
      if p.symbol = symbol then
        { p with current_price := price,
                 unrealized_pnl :=
                   if p.side = PositionSide.long then
                     (price - p.entry_price) * p.quantity
                   else (p.entry_price - price) * p.quantity }
      else p)).map (·.id) = l.map (·.id) := by
  apply map_obs_eq
  intro x _
  by_cases hs : x.symbol = symbol
  · rw [if_pos hs]
  · rw [if_neg hs]

/-- `_update_positions` (mark-to-market) preserves the invariant. -/
lemma inv_update_positions_mark {e : Engine} (h : EngineInv e)
    (symbol : String) (price : ℚ) :
    EngineInv (e.update_positions_mark symbol price) := by
  simp only [Engine.update_positions_mark]
  refine ⟨h.orders_qty, ?_, ?_, ?_, ?_⟩
  · intro p hp
    obtain ⟨y, hy, rfl⟩ := List.mem_map.mp hp
    by_cases hs : y.symbol = symbol
    · rw [if_pos hs]
      exact h.pos_qty y hy
    · rw [if_neg hs]
      exact h.pos_qty y hy
  · rw [mark_map_symbol]
    exact h.sym_nodup
  · rw [mark_map_id]
    exact h.id_nodup
  · intro p hp
    obtain ⟨y, hy, rfl⟩ := List.mem_map.mp hp
    by_cases hs : y.symbol = symbol
    · rw [if_pos hs]
      exact h.id_lt y hy
    · rw [if_neg hs]
      exact h.id_lt y hy

/-- The pending-order scan preserves the invariant, whether or not it
aborts on a `TypeError`. -/
lemma inv_check_pending_orders_go (symbol : String) (price : ℚ) :
    ∀ (ids : List Nat) (e : Engine), EngineInv e →
      EngineInv (check_pending_orders_go symbol price ids e).1 := by
  intro ids
  induction ids with
  | nil =>
      intro e h
      exact h
  | cons oid rest ih =>
      intro e h
      cases hfind : e.orders.find? (fun o => o.id = oid) with
      | none =>
          simp only [check_pending_orders_go, hfind]
          exact ih e h
      | some o =>
          by_cases hcond : o.symbol = symbol ∧ o.status = OrderStatus.pending
          · cases hse : should_execute_order o price with
            | none =>
                simp only [check_pending_orders_go, hfind, if_pos hcond, hse]
                exact h
            | some b =>
                cases b with
                | false =>
                    simp only [check_pending_orders_go, hfind, if_pos hcond, hse]
                    exact ih e h
                | true =>
                    simp only [check_pending_orders_go, hfind, if_pos hcond, hse]
                    exact ih _ (inv_execute_market_order h
                      (h.orders_qty o (List.mem_of_find?_eq_some hfind)))
          · simp only [check_pending_orders_go, hfind, if_neg hcond]
            exact ih e h

/-- `update_market_price` preserves the invariant. -/
lemma inv_update_market_price {e : Engine} (h : EngineInv e)
    (symbol : String) (price : ℚ) :
    EngineInv (e.update_market_price symbol price).1 := by
  simp only [Engine.update_market_price]
  apply inv_check_pending_orders_go
  apply inv_update_positions_mark
  exact ⟨h.orders_qty, h.pos_qty, h.sym_nodup, h.id_nodup, h.id_lt⟩

/-- A fresh engine satisfies the invariant. -/
lemma inv_new (b : ℚ) : EngineInv (Engine.new b) := by
  refine ⟨?_, ?_, ?_, ?_, ?_⟩ <;> simp [Engine.new]

/-- `start` preserves the invariant. -/
lemma inv_start {e : Engine} (h : EngineInv e) : EngineInv e.start :=
  ⟨h.orders_qty, h.pos_qty, h.sym_nodup, h.id_nodup, h.id_lt⟩

/-- `stop` preserves the invariant. -/
lemma inv_stop {e : Engine} (h : EngineInv e) : EngineInv e.stop :=
  ⟨h.orders_qty, h.pos_qty, h.sym_nodup, h.id_nodup, h.id_lt⟩

/-- Engine states reachable from a fresh engine through the public API
(`start`, `stop`, `place_order`, `cancel_order`, `close_position`,
`update_market_price`). -/
inductive Reachable : Engine → Prop
  | new (b : ℚ) : Reachable (Engine.new b)
  | start {e : Engine} : Reachable e → Reachable e.start
  | stop {e : Engine} : Reachable e → Reachable e.stop
  | place {e : Engine} (symbol : String) (side : OrderSide) (ty : OrderType)
      (q : ℚ) (p sp : Option ℚ) : Reachable e →
      Reachable (e.place_order symbol side ty q p sp).1
  | cancel {e : Engine} (oid : Nat) : Reachable e →
      Reachable (e.cancel_order oid).1
  | close {e : Engine} (pid : Nat) (q : Option ℚ) : Reachable e →
      Reachable (e.close_position pid q).1
  | tick {e : Engine} (symbol : String) (price : ℚ) : Reachable e →
      Reachable (e.update_market_price symbol price).1

/-- Every reachable engine state satisfies the invariant. -/
lemma reachable_inv {e : Engine} (h : Reachable e) : EngineInv e := by
  induction h with
  | new b => exact inv_new b
  | start _ ih => exact inv_start ih
  | stop _ ih => exact inv_stop ih
  | place symbol side ty q p sp _ ih =>
      exact inv_place_order ih symbol side ty q p sp
  | cancel oid _ ih => exact inv_cancel_order ih oid
  | close pid q _ ih => exact inv_close_position ih pid q
  | tick symbol price _ ih => exact inv_update_market_price ih symbol price

/-- C9: after every public operation of the engine — i.e. in every state
reachable from a fresh engine through `place_order`, `cancel_order`,
`close_position` and `update_market_price` (and `start`/`stop`) — the
position collection holds at most one position per symbol (the symbol list
has no duplicates) and every stored position has strictly positive
quantity (a position whose quantity would drop to 0 is removed, never
retained). -/
theorem C9_position_invariant (e : Engine) (h : Reachable e) :
    (∀ p ∈ e.positions, 0 < p.quantity) ∧
    (e.positions.map (·.symbol)).Nodup :=
  ⟨(reachable_inv h).pos_qty, (reachable_inv h).sym_nodup⟩

/-- Witness for C9: the scenario-B state (start; tick; buy 2; tick;
sell 1) is reachable, and its position collection satisfies the
invariant. -/
theorem C9_witness :
    (∀ p ∈ eB4.positions, 0 < p.quantity) ∧
    (eB4.positions.map (·.symbol)).Nodup :=
  C9_position_invariant eB4
    (Reachable.place "BTC" OrderSide.sell OrderType.market 1 none none
      (Reachable.tick "BTC" 110
        (Reachable.place "BTC" OrderSide.buy OrderType.market 2 none none
          (Reachable.tick "BTC" 100
            (Reachable.start (Reachable.new 10000))))))
